import Mathlib

/-!
# Verification of the mei-translate orchestration core

Shallow embedding, in Lean 4, of the translation-orchestration core of the
mei-translate repository:

* `packages/backend/src/utils/hash.ts` — cache-key fingerprinting
* `packages/backend/src/utils/cache.ts` — KV result cache
* `packages/backend/src/agents/translator.ts` — `translateWithUserKeys`,
  `translateBatch`, `detectLanguage`
* `packages/backend/src/providers/free-translate.ts` — `freeTranslate` racer
* `packages/backend/src/providers/base.ts` — `BaseLLMProvider.fetchWithRetry`
* `packages/backend/src/routes/translate.ts` — the `POST /translate/dual` route
* `packages/extension/src/lib/webpage-translation.ts` — the batch splitter in
  `startWebTranslation`

External I/O (fetch, Cloudflare KV, Web Crypto) is modelled by explicit
parameters: the KV store is a `String → Option CachedTranslation` map passed
and returned, provider calls are outcome parameters, and SHA-256 is an
abstract `hashFn : String → String` parameter (none of the properties below
depend on the digest function itself).  JavaScript string truthiness is
modelled by comparison with the empty string and `undefined` by `Option`.
-/

namespace MeiTranslate

/-- Fallible computations are embedded as `Except`; give it decidable
equality so concrete runs can be checked by `decide`. -/
instance decEqExcept {ε α : Type} [DecidableEq ε] [DecidableEq α] :
    DecidableEq (Except ε α) := fun a b =>
  match a, b with
  | .error e₁, .error e₂ =>
    if h : e₁ = e₂ then .isTrue (by rw [h])
    else .isFalse (fun hh => by injection hh with h₂; exact h h₂)
  | .ok a₁, .ok a₂ =>
    if h : a₁ = a₂ then .isTrue (by rw [h])
    else .isFalse (fun hh => by injection hh with h₂; exact h h₂)
  | .error _, .ok _ => .isFalse (fun hh => Except.noConfusion hh)
  | .ok _, .error _ => .isFalse (fun hh => Except.noConfusion hh)

/-! ## JavaScript string primitives -/

/-- The character class of the JavaScript `\s` regex escape (also the set
stripped by `String.prototype.trim`): ASCII whitespace plus the Unicode
space separators, line separators and the BOM. -/
def isJsSpace (c : Char) : Bool :=
  c.toNat == 32 || c.toNat == 9 || c.toNat == 10 || c.toNat == 11 ||
  c.toNat == 12 || c.toNat == 13 || c.toNat == 0xa0 || c.toNat == 0x1680 ||
  (0x2000 ≤ c.toNat && c.toNat ≤ 0x200a) || c.toNat == 0x2028 ||
  c.toNat == 0x2029 || c.toNat == 0x202f || c.toNat == 0x205f ||
  c.toNat == 0x3000 || c.toNat == 0xfeff

/-- JavaScript `String.prototype.trim`. -/
def jsTrim (s : String) : String :=
  String.mk (((s.data.dropWhile isJsSpace).reverse.dropWhile isJsSpace).reverse)

/-- `o || d` for JavaScript strings: an absent or empty string falls back to
the default. -/
def jsOrStr (o : Option String) (d : String) : String :=
  match o with
  | some s => if s = "" then d else s
  | none => d

/-- Does `pat` occur as a contiguous run inside `l`?  Executable model of
JavaScript `String.prototype.includes` at the character-list level. -/
def hasRun (pat : List Char) : List Char → Bool
  | [] => pat.isPrefixOf []
  | c :: t => pat.isPrefixOf (c :: t) || hasRun pat t

/-- JavaScript `s.includes(pat)`. -/
def strIncludes (s pat : String) : Bool :=
  hasRun pat.data s.data

/-- JavaScript `Array.prototype.join('; ')`. -/
def joinSemi : List String → String
  | [] => ""
  | [s] => s
  | s :: t => s ++ "; " ++ joinSemi t

/-! ## Language detection (`agents/translator.ts`, `detectLanguage`)

The source tests the text against Unicode script ranges with regexes; each
regex `test` is an existence check over the characters of the string. -/

/-- `detectLanguage` from `agents/translator.ts`: script-range heuristics,
defaulting to English. -/
def detectLanguage (text : String) : String :=
  if text.data.any (fun c => 0x4e00 ≤ c.toNat && c.toNat ≤ 0x9fff) then "zh"
  else if text.data.any (fun c => 0x3040 ≤ c.toNat && c.toNat ≤ 0x30ff) then "ja"
  else if text.data.any (fun c => 0xac00 ≤ c.toNat && c.toNat ≤ 0xd7af) then "ko"
  else if text.data.any (fun c => 0x0400 ≤ c.toNat && c.toNat ≤ 0x04ff) then "ru"
  else if text.data.any (fun c => 0x0600 ≤ c.toNat && c.toNat ≤ 0x06ff) then "ar"
  else "en"

/-! ## Cache-key fingerprinting (`utils/hash.ts`) -/

/-- `generateCacheKey` from `utils/hash.ts`.  `hashFn` stands for the
SHA-256 hex digest computed through the Web Crypto API (`hashText`); the
source truncates it to 16 hex characters with `substring(0, 16)`. -/
def generateCacheKey (hashFn : String → String)
    (text sourceLang targetLang : String) (contextType : Option String) : String :=
  let combined :=
    text ++ "|" ++ sourceLang ++ "|" ++ targetLang ++ "|" ++ jsOrStr contextType "general"
  "trans:" ++ sourceLang ++ ":" ++ targetLang ++ ":" ++ (hashFn combined).take 16

/-! ## The KV result cache (`utils/cache.ts`)

Cloudflare KV is an external key-value service; it is modelled as a total map
from keys to optional cached entries.  The `cachedAt` timestamp and the TTL
are wall-clock effects of the external store and are not represented. -/

/-- A cached translation value (`CachedTranslation` in `utils/cache.ts`). -/
structure CachedTranslation where
  translatedText : String
  sourceLang : String
  targetLang : String
  model : String
  deriving DecidableEq, Repr

/-- The KV namespace contents. -/
def Store : Type := String → Option CachedTranslation

/-- The empty KV namespace. -/
def emptyStore : Store := fun _ => none

/-- `TRANSLATION_CACHE.put`: blind overwrite of one key. -/
def kvPut (s : Store) (k : String) (v : CachedTranslation) : Store :=
  fun x => if x = k then some v else s x

/-! ## Providers and user API keys (`types.ts`, `providers/index.ts`) -/

/-- The `ModelProvider` union from `types.ts`. -/
inductive ModelProvider where
  | openai | claude | deepseek | gemini | qwen | moonshot | zhipu | groq
  deriving DecidableEq, Repr

/-- The provider tag as the string used in requests and cache rows. -/
def providerName : ModelProvider → String
  | .openai => "openai"
  | .claude => "claude"
  | .deepseek => "deepseek"
  | .gemini => "gemini"
  | .qwen => "qwen"
  | .moonshot => "moonshot"
  | .zhipu => "zhipu"
  | .groq => "groq"

/-- `UserApiKeys` from `types.ts`: one optional secret per provider. -/
structure UserApiKeys where
  openai : Option String := none
  claude : Option String := none
  deepseek : Option String := none
  gemini : Option String := none
  qwen : Option String := none
  moonshot : Option String := none
  zhipu : Option String := none
  groq : Option String := none
  deriving DecidableEq, Repr

/-- Field lookup `apiKeys[provider]`. -/
def keyOf (ks : UserApiKeys) : ModelProvider → Option String
  | .openai => ks.openai
  | .claude => ks.claude
  | .deepseek => ks.deepseek
  | .gemini => ks.gemini
  | .qwen => ks.qwen
  | .moonshot => ks.moonshot
  | .zhipu => ks.zhipu
  | .groq => ks.groq

/-- A key is usable when it is present and non-empty (JavaScript truthiness
of `apiKeys[provider]`). -/
def truthyKey (o : Option String) : Bool :=
  match o with
  | some s => s != ""
  | none => false

/-- The fixed priority order over providers (declaration order of the
`UserApiKeys` fields). -/
def providerPriority : List ModelProvider :=
  [.openai, .claude, .deepseek, .gemini, .qwen, .moonshot, .zhipu, .groq]

/-- Modelled from the spec: `getFirstAvailableProvider` lives in the provider
registry (`packages/backend/src/providers/index.ts` of the deployed app),
which is not among the provided sources — only its callers are.  Per spec
§4.4 the adapter layer picks "the first available provider in a fixed
priority order", and per §8 availability means the key map has at least one
non-empty value. -/
def getFirstAvailableProvider (ks : UserApiKeys) : Option (ModelProvider × String) :=
  (providerPriority.filterMap fun p =>
    match keyOf ks p with
    | some s => if s = "" then none else some (p, s)
    | none => none).head?

/-- Provider selection in `translateWithUserKeys` / `translateBatch`: an
explicitly requested provider whose key is usable wins, otherwise the first
available provider. -/
def selectProvider (ks : UserApiKeys) (preferred : Option ModelProvider) :
    Option (ModelProvider × String) :=
  match preferred with
  | some p =>
    match keyOf ks p with
    | some s => if s = "" then getFirstAvailableProvider ks else some (p, s)
    | none => getFirstAvailableProvider ks
  | none => getFirstAvailableProvider ks

/-! ## `translateWithUserKeys` (`agents/translator.ts`) -/

/-- The uniform LLM response shape (`LLMResponse` in `types.ts`), reduced to
the fields `translateWithUserKeys` reads. -/
structure LLMResponse where
  content : String
  tokensTotal : Nat
  deriving DecidableEq, Repr

/-- `TranslationResult` from `agents/translator.ts`. -/
structure TranslationResult where
  translatedText : String
  sourceLang : String
  targetLang : String
  model : String
  cached : Bool
  tokensUsed : Nat
  deriving DecidableEq, Repr

/-- The options bag of `translateWithUserKeys`. -/
structure TranslateOptions where
  sourceLang : Option String := none
  contextType : Option String := none
  model : Option ModelProvider := none
  useCache : Bool := true
  deriving DecidableEq, Repr

/-- One run of `translateWithUserKeys`, with its observable effects: the
resulting value or thrown error, the KV store afterwards, the number of
provider `chat` calls issued and the number of cache reads issued. -/
structure TranslateTrace where
  result : Except String TranslationResult
  store : Store
  providerCalls : Nat
  cacheReads : Nat

/-- `translateWithUserKeys` from `agents/translator.ts`.  `providerOutcome`
is what the selected provider's `chat` would do when called (success with an
`LLMResponse`, or a thrown error). -/
def translateWithUserKeys (hashFn : String → String) (store : Store)
    (text targetLang : String) (apiKeys : UserApiKeys) (opts : TranslateOptions)
    (providerOutcome : Except String LLMResponse) : TranslateTrace :=
  let sourceLang := opts.sourceLang.getD (detectLanguage text)
  if sourceLang = targetLang then
    { result := .ok
        { translatedText := text, sourceLang, targetLang
          model := jsOrStr (opts.model.map providerName) "openai"
          cached := false, tokensUsed := 0 }
      store, providerCalls := 0, cacheReads := 0 }
  else
    let key := generateCacheKey hashFn text sourceLang targetLang opts.contextType
    let cacheHit := if opts.useCache then store key else none
    let reads : Nat := if opts.useCache then 1 else 0
    match cacheHit with
    | some c =>
      { result := .ok
          { translatedText := c.translatedText, sourceLang, targetLang
            model := c.model, cached := true, tokensUsed := 0 }
        store, providerCalls := 0, cacheReads := reads }
    | none =>
      match selectProvider apiKeys opts.model with
      | none =>
        { result := .error "No API key configured"
          store, providerCalls := 0, cacheReads := reads }
      | some (prov, _apiKey) =>
        match providerOutcome with
        | .error m =>
          { result := .error m, store, providerCalls := 1, cacheReads := reads }
        | .ok resp =>
          let translated := jsTrim resp.content
          let store' :=
            if opts.useCache && (translated != "") then
              kvPut store key
                { translatedText := translated, sourceLang, targetLang
                  model := providerName prov }
            else store
          { result := .ok
              { translatedText := translated, sourceLang, targetLang
                model := providerName prov, cached := false
                tokensUsed := resp.tokensTotal }
            store := store', providerCalls := 1, cacheReads := reads }

/-! ## Branch lemmas for `translateWithUserKeys` -/

/-- Cache-hit branch: with distinct languages, caching on and the key
present, the call returns the stored entry and issues no provider call. -/
theorem translateWithUserKeys_hit (hashFn : String → String) (store : Store)
    (text targetLang : String) (apiKeys : UserApiKeys) (opts : TranslateOptions)
    (po : Except String LLMResponse) (c : CachedTranslation)
    (hlang : opts.sourceLang.getD (detectLanguage text) ≠ targetLang)
    (hcache : opts.useCache = true)
    (hhit : store (generateCacheKey hashFn text (opts.sourceLang.getD (detectLanguage text))
      targetLang opts.contextType) = some c) :
    translateWithUserKeys hashFn store text targetLang apiKeys opts po =
      { result := .ok
          { translatedText := c.translatedText
            sourceLang := opts.sourceLang.getD (detectLanguage text), targetLang
            model := c.model, cached := true, tokensUsed := 0 }
        store, providerCalls := 0, cacheReads := 1 } := by
  unfold translateWithUserKeys
  rw [if_neg hlang]
  simp only [hcache, if_pos rfl, if_true, hhit]

/-- Cache-miss, provider-success branch. -/
theorem translateWithUserKeys_miss_ok (hashFn : String → String) (store : Store)
    (text targetLang : String) (apiKeys : UserApiKeys) (opts : TranslateOptions)
    (resp : LLMResponse) (prov : ModelProvider) (apiKey : String)
    (hlang : opts.sourceLang.getD (detectLanguage text) ≠ targetLang)
    (hcache : opts.useCache = true)
    (hmiss : store (generateCacheKey hashFn text (opts.sourceLang.getD (detectLanguage text))
      targetLang opts.contextType) = none)
    (hsel : selectProvider apiKeys opts.model = some (prov, apiKey)) :
    translateWithUserKeys hashFn store text targetLang apiKeys opts (.ok resp) =
      { result := .ok
          { translatedText := jsTrim resp.content
            sourceLang := opts.sourceLang.getD (detectLanguage text), targetLang
            model := providerName prov, cached := false, tokensUsed := resp.tokensTotal }
        store :=
          if jsTrim resp.content != "" then
            kvPut store
              (generateCacheKey hashFn text (opts.sourceLang.getD (detectLanguage text))
                targetLang opts.contextType)
              { translatedText := jsTrim resp.content
                sourceLang := opts.sourceLang.getD (detectLanguage text), targetLang
                model := providerName prov }
          else store
        providerCalls := 1, cacheReads := 1 } := by
  unfold translateWithUserKeys
  rw [if_neg hlang]
  simp only [hcache, if_pos rfl, if_true, hmiss, hsel, Bool.true_and]

/-! ## Claim C6 -/

/-- C6: the cache-key fingerprint is a deterministic pure function of
`(text, sourceLang, targetLang, contextType)` — equal inputs give equal
keys — and an omitted `contextType` yields exactly the key of
`contextType = "general"`. -/
theorem c6_cache_key_deterministic (hashFn : String → String)
    (t1 s1 g1 : String) (c1 : Option String) (t2 s2 g2 : String) (c2 : Option String)
    (ht : t1 = t2) (hs : s1 = s2) (hg : g1 = g2) (hc : c1 = c2) :
    generateCacheKey hashFn t1 s1 g1 c1 = generateCacheKey hashFn t2 s2 g2 c2 ∧
    generateCacheKey hashFn t1 s1 g1 none = generateCacheKey hashFn t1 s1 g1 (some "general") := by
  subst ht hs hg hc
  refine ⟨rfl, ?_⟩
  simp [generateCacheKey, jsOrStr]

/-- C6 witness at concrete inputs. -/
theorem c6_witness :
    ("Hello" : String) = "Hello" ∧
    generateCacheKey (fun s => s) "Hello" "en" "zh" none =
      generateCacheKey (fun s => s) "Hello" "en" "zh" (some "general") :=
  ⟨rfl, (c6_cache_key_deterministic (fun s => s) "Hello" "en" "zh" none
    "Hello" "en" "zh" none rfl rfl rfl rfl).2⟩

/-! ## Claim C10 -/

/-- C10: when the supplied (or heuristically detected) source language
equals the target language, `translateWithUserKeys` returns the input text
unchanged with `cached = false` and `tokensUsed = 0`, reads no cache entry
and calls no provider. -/
theorem c10_same_language_passthrough (hashFn : String → String) (store : Store)
    (text targetLang : String) (apiKeys : UserApiKeys) (opts : TranslateOptions)
    (po : Except String LLMResponse)
    (h : opts.sourceLang.getD (detectLanguage text) = targetLang) :
    (translateWithUserKeys hashFn store text targetLang apiKeys opts po).result =
      .ok { translatedText := text, sourceLang := targetLang, targetLang
            model := jsOrStr (opts.model.map providerName) "openai"
            cached := false, tokensUsed := 0 } ∧
    (translateWithUserKeys hashFn store text targetLang apiKeys opts po).store = store ∧
    (translateWithUserKeys hashFn store text targetLang apiKeys opts po).providerCalls = 0 ∧
    (translateWithUserKeys hashFn store text targetLang apiKeys opts po).cacheReads = 0 := by
  unfold translateWithUserKeys
  rw [if_pos h, h]
  exact ⟨rfl, rfl, rfl, rfl⟩

/-- C10 witness: `detectLanguage "hello" = "en"`, so translating `"hello"`
to English passes the text through untouched. -/
theorem c10_witness :
    (({} : TranslateOptions).sourceLang.getD (detectLanguage "hello") = "en") ∧
    (translateWithUserKeys (fun s => s) emptyStore "hello" "en" {} {}
        (.error "provider down")).result =
      .ok { translatedText := "hello", sourceLang := "en", targetLang := "en"
            model := "openai", cached := false, tokensUsed := 0 } :=
  ⟨by decide, (c10_same_language_passthrough (fun s => s) emptyStore "hello" "en" {} {}
    (.error "provider down") (by decide)).1⟩

/-! ## Claim C4 -/

/-- C4 counterexample: the claim fails as stated.  If the provider returns a
translation that trims to the empty string, the first call succeeds (HTTP
success, `cached = false`) but nothing is cached — the code guards the cache
write with `if (useCache && translatedText)` — so the identical second call
misses the cache and issues a second provider call with `cached = false`. -/
theorem c4_counterexample :
    (translateWithUserKeys (fun s => s) emptyStore "Hi" "zh"
        { openai := some "k" } {} (.ok ⟨"", 5⟩)).result =
      .ok { translatedText := "", sourceLang := "en", targetLang := "zh"
            model := "openai", cached := false, tokensUsed := 5 } ∧
    (translateWithUserKeys (fun s => s)
        (translateWithUserKeys (fun s => s) emptyStore "Hi" "zh"
          { openai := some "k" } {} (.ok ⟨"", 5⟩)).store
        "Hi" "zh" { openai := some "k" } {} (.ok ⟨"", 5⟩)).providerCalls = 1 ∧
    (translateWithUserKeys (fun s => s)
        (translateWithUserKeys (fun s => s) emptyStore "Hi" "zh"
          { openai := some "k" } {} (.ok ⟨"", 5⟩)).store
        "Hi" "zh" { openai := some "k" } {} (.ok ⟨"", 5⟩)).result =
      .ok { translatedText := "", sourceLang := "en", targetLang := "zh"
            model := "openai", cached := false, tokensUsed := 5 } := by
  decide

/-- C4 (amended): for every fragment with source language different from the
target whose first `translate` call with `useCache = true` succeeds *with a
non-empty translated text*, a second call with the identical fragment and
`useCache = true` returns the stored translation with `cached = true` and
issues no second provider call. -/
theorem c4_cache_idempotent (hashFn : String → String) (store : Store)
    (text targetLang : String) (ks1 ks2 : UserApiKeys) (opts : TranslateOptions)
    (po1 po2 : Except String LLMResponse) (r : TranslationResult)
    (hlang : opts.sourceLang.getD (detectLanguage text) ≠ targetLang)
    (hcache : opts.useCache = true)
    (h1 : (translateWithUserKeys hashFn store text targetLang ks1 opts po1).result = .ok r)
    (hne : r.translatedText ≠ "") :
    (translateWithUserKeys hashFn
        (translateWithUserKeys hashFn store text targetLang ks1 opts po1).store
        text targetLang ks2 opts po2).providerCalls = 0 ∧
    (translateWithUserKeys hashFn
        (translateWithUserKeys hashFn store text targetLang ks1 opts po1).store
        text targetLang ks2 opts po2).result =
      .ok { translatedText := r.translatedText
            sourceLang := opts.sourceLang.getD (detectLanguage text), targetLang
            model := r.model, cached := true, tokensUsed := 0 } := by
  cases hstore : store (generateCacheKey hashFn text
      (opts.sourceLang.getD (detectLanguage text)) targetLang opts.contextType) with
  | some c =>
    rw [translateWithUserKeys_hit hashFn store text targetLang ks1 opts po1 c
      hlang hcache hstore] at h1 ⊢
    cases h1
    rw [translateWithUserKeys_hit hashFn store text targetLang ks2 opts po2 c
      hlang hcache hstore]
    exact ⟨rfl, rfl⟩
  | none =>
    cases hsel : selectProvider ks1 opts.model with
    | none =>
      exfalso
      revert h1
      unfold translateWithUserKeys
      rw [if_neg hlang]
      simp [hcache, hstore, hsel]
    | some pk =>
      cases po1 with
      | error m =>
        exfalso
        revert h1
        unfold translateWithUserKeys
        rw [if_neg hlang]
        simp [hcache, hstore, hsel]
      | ok resp =>
        rw [translateWithUserKeys_miss_ok hashFn store text targetLang ks1 opts resp
          pk.1 pk.2 hlang hcache hstore hsel] at h1 ⊢
        cases h1
        have htr : jsTrim resp.content ≠ "" := hne
        rw [if_pos (by simpa using htr)]
        rw [translateWithUserKeys_hit hashFn _ text targetLang ks2 opts po2
          { translatedText := jsTrim resp.content
            sourceLang := opts.sourceLang.getD (detectLanguage text), targetLang
            model := providerName pk.1 }
          hlang hcache (by simp [kvPut])]
        exact ⟨rfl, rfl⟩

/-- C4 witness: a concrete successful-then-cached pair of calls. -/
theorem c4_witness :
    (({} : TranslateOptions).sourceLang.getD (detectLanguage "Hi") ≠ "zh" ∧
     ({} : TranslateOptions).useCache = true ∧
     (translateWithUserKeys (fun s => s) emptyStore "Hi" "zh"
        { openai := some "k" } {} (.ok ⟨"你好", 7⟩)).result =
       .ok { translatedText := "你好", sourceLang := "en", targetLang := "zh"
             model := "openai", cached := false, tokensUsed := 7 }) ∧
    (translateWithUserKeys (fun s => s)
        (translateWithUserKeys (fun s => s) emptyStore "Hi" "zh"
          { openai := some "k" } {} (.ok ⟨"你好", 7⟩)).store
        "Hi" "zh" { openai := some "k" } {} (.error "second call")).providerCalls = 0 ∧
    (translateWithUserKeys (fun s => s)
        (translateWithUserKeys (fun s => s) emptyStore "Hi" "zh"
          { openai := some "k" } {} (.ok ⟨"你好", 7⟩)).store
        "Hi" "zh" { openai := some "k" } {} (.error "second call")).result =
      .ok { translatedText := "你好", sourceLang := "en", targetLang := "zh"
            model := "openai", cached := true, tokensUsed := 0 } :=
  ⟨⟨by decide, rfl, by decide⟩,
   c4_cache_idempotent (fun s => s) emptyStore "Hi" "zh"
     { openai := some "k" } { openai := some "k" } {} (.ok ⟨"你好", 7⟩)
     (.error "second call")
     { translatedText := "你好", sourceLang := "en", targetLang := "zh"
       model := "openai", cached := false, tokensUsed := 7 }
     (by decide) rfl (by decide) (by decide)⟩

/-! ## The free-translation racer (`providers/free-translate.ts`)

`freeTranslate` launches every configured backend at once on the same
inputs, sharing one `AbortController`; the wrapper around each backend
aborts the controller on success and rewrites an `AbortError` rejection
into a `"<name> aborted (another provider won)"` pseudo-error; `Promise.any`
then yields the first fulfilled promise, and if all reject, the
`AggregateError` branch joins the rejection messages that do not contain
`"aborted"`.

Each backend's network behaviour is abstracted as a `RacerEntry`: the
provider wrapper's name, the instant (`time`) at which its promise would
settle if not aborted, and how it would settle.  `Promise.any` resolves
with the earliest-settling fulfilled promise; a backend still in flight
when the controller aborts (`time` later than the winner's) settles as an
`AbortError` instead, so its own outcome is never observed. -/

/-- `FreeTranslateResult` from `providers/free-translate.ts`. -/
structure FreeTranslateResult where
  translatedText : String
  detectedSourceLang : Option String
  provider : String
  deriving DecidableEq, Repr

/-- How a backend's promise would settle, absent cancellation. -/
inductive BackendOutcome where
  | ok (r : FreeTranslateResult)
  | err (name msg : String)
  deriving DecidableEq, Repr

/-- One racing backend: wrapper name, settle instant, raw outcome. -/
structure RacerEntry where
  pname : String
  time : Nat
  outcome : BackendOutcome
  deriving DecidableEq, Repr

/-- Does the entry's promise fulfil (rather than reject)? -/
def RacerEntry.isSuccess (e : RacerEntry) : Bool :=
  match e.outcome with
  | .ok _ => true
  | .err _ _ => false

/-- One step of scanning for the earliest fulfilled promise. -/
def raceStep (best : Option (Nat × FreeTranslateResult)) (e : RacerEntry) :
    Option (Nat × FreeTranslateResult) :=
  match e.outcome with
  | .ok r =>
    match best with
    | none => some (e.time, r)
    | some b => if e.time < b.1 then some (e.time, r) else some b
  | .err _ _ => best

/-- The settle instant and value `Promise.any` resolves with: the earliest
fulfilled backend (first in list order among equal instants). -/
def raceWinner (entries : List RacerEntry) : Option (Nat × FreeTranslateResult) :=
  entries.foldl raceStep none

/-- The wrapper in `freeTranslate` rewrites an `AbortError` rejection into
the `"<name> aborted (another provider won)"` pseudo-error and rethrows any
other error unchanged.  (Only used on rejected entries.) -/
def entryRejectionMsg (e : RacerEntry) : String :=
  match e.outcome with
  | .ok _ => ""
  | .err name msg =>
    if name = "AbortError" then e.pname ++ " aborted (another provider won)" else msg

/-- The `AggregateError` branch of `freeTranslate`: keep the rejection
messages that do not contain `"aborted"`, join with `"; "`, and fall back
to `"unknown error"` when the join is empty. -/
def aggregateFailures (msgs : List String) : String :=
  let joined := joinSemi (msgs.filter fun m => !(strIncludes m "aborted"))
  "All providers failed: " ++ (if joined = "" then "unknown error" else joined)

/-- `freeTranslate` from `providers/free-translate.ts`: first fulfilled
backend wins; if every backend rejects, the filtered aggregate error is
thrown. -/
def freeTranslate (entries : List RacerEntry) : Except String FreeTranslateResult :=
  match raceWinner entries with
  | some w => .ok w.2
  | none => .error (aggregateFailures (entries.map entryRejectionMsg))

/-- Does this backend receive the cooperative abort signal?  The controller
aborts exactly when some backend fulfils, and a backend still in flight at
that instant is cancelled. -/
def receivesAbort (entries : List RacerEntry) (e : RacerEntry) : Bool :=
  match raceWinner entries with
  | some w => decide (w.1 < e.time)
  | none => false

/-- The outcome actually observed for a backend once the race ran: an
aborted fetch settles as an `AbortError` instead of its own outcome. -/
def observedOutcome (entries : List RacerEntry) (e : RacerEntry) : BackendOutcome :=
  if receivesAbort entries e then .err "AbortError" "The operation was aborted"
  else e.outcome

/-! ### Racer lemmas -/

/-- Folding further entries that settle no earlier than the current winner
never changes the winner. -/
theorem raceFold_keep (t₀ : Nat) (r₀ : FreeTranslateResult) :
    ∀ l : List RacerEntry,
      (∀ e ∈ l, e.isSuccess = true → t₀ ≤ e.time) →
      l.foldl raceStep (some (t₀, r₀)) = some (t₀, r₀) := by
  intro l
  induction l with
  | nil => intro _; rfl
  | cons e t ih =>
    intro h
    have he := h e (List.mem_cons_self e t)
    have ht : ∀ x ∈ t, x.isSuccess = true → t₀ ≤ x.time :=
      fun x hx => h x (List.mem_cons_of_mem e hx)
    cases hout : e.outcome with
    | ok r =>
      have : t₀ ≤ e.time := he (by simp [RacerEntry.isSuccess, hout])
      simp only [List.foldl_cons, raceStep, hout, if_neg (Nat.not_lt.mpr this)]
      exact ih ht
    | err name msg =>
      simp only [List.foldl_cons, raceStep, hout]
      exact ih ht

/-- If `e₀` fulfils strictly earlier than every other fulfilled entry, the
fold yields `e₀`'s settle instant and value, from any initial state that is
empty, already `e₀`, or later than `e₀`. -/
theorem raceFold_min (e₀ : RacerEntry) (r₀ : FreeTranslateResult)
    (h₀ : e₀.outcome = .ok r₀) :
    ∀ (l : List RacerEntry) (init : Option (Nat × FreeTranslateResult)),
      (∀ e ∈ l, e.isSuccess = true → e = e₀ ∨ e₀.time < e.time) →
      (init = some (e₀.time, r₀) ∨
        (e₀ ∈ l ∧ (init = none ∨ ∃ p, init = some p ∧ e₀.time < p.1))) →
      l.foldl raceStep init = some (e₀.time, r₀) := by
  intro l
  induction l with
  | nil =>
    intro init _ hinit
    rcases hinit with h | ⟨hmem, _⟩
    · simpa using h
    · exact absurd hmem (List.not_mem_nil e₀)
  | cons e t ih =>
    intro init hl hinit
    have hlt : ∀ x ∈ t, x.isSuccess = true → x = e₀ ∨ e₀.time < x.time :=
      fun x hx => hl x (List.mem_cons_of_mem e hx)
    rcases hinit with hi | ⟨hmem, hio⟩
    · subst hi
      have hkeep : ∀ x ∈ [e], x.isSuccess = true → e₀.time ≤ x.time := by
        intro x hx hs
        rcases List.mem_singleton.mp hx with rfl
        rcases hl x (List.mem_cons_self x t) hs with rfl | hlt'
        · exact Nat.le_refl _
        · exact Nat.le_of_lt hlt'
      have step1 : raceStep (some (e₀.time, r₀)) e = some (e₀.time, r₀) := by
        have := raceFold_keep e₀.time r₀ [e] hkeep
        simpa using this
      rw [List.foldl_cons, step1]
      exact ih (some (e₀.time, r₀)) hlt (Or.inl rfl)
    · rcases List.mem_cons.mp hmem with rfl | hmemt
      · -- the head is `e₀` itself
        have step1 : raceStep init e₀ = some (e₀.time, r₀) := by
          rcases hio with rfl | ⟨p, rfl, hp⟩
          · simp [raceStep, h₀]
          · simp [raceStep, h₀, if_pos hp]
        rw [List.foldl_cons, step1]
        exact ih _ hlt (Or.inl rfl)
      · -- `e₀` occurs later; track the evolving state
        cases hout : e.outcome with
        | err name msg =>
          have step1 : raceStep init e = init := by simp [raceStep, hout]
          rw [List.foldl_cons, step1]
          exact ih init hlt (Or.inr ⟨hmemt, hio⟩)
        | ok r =>
          have hsucc : e.isSuccess = true := by simp [RacerEntry.isSuccess, hout]
          rcases hl e (List.mem_cons_self e t) hsucc with rfl | hlt'
          · -- the head equals `e₀` even though `e₀` also occurs later
            have hr : r = r₀ := by
              rw [h₀] at hout
              injection hout with h'
              exact h'.symm
            subst hr
            have step1 : raceStep init e = some (e.time, r) := by
              rcases hio with rfl | ⟨p, rfl, hp⟩
              · simp [raceStep, hout]
              · simp [raceStep, hout, if_pos hp]
            rw [List.foldl_cons, step1]
            exact ih _ hlt (Or.inl rfl)
          · rcases hio with rfl | ⟨p, rfl, hp⟩
            · rw [List.foldl_cons]
              have : raceStep none e = some (e.time, r) := by simp [raceStep, hout]
              rw [this]
              exact ih _ hlt (Or.inr ⟨hmemt, Or.inr ⟨(e.time, r), rfl, hlt'⟩⟩)
            · rw [List.foldl_cons]
              by_cases hcmp : e.time < p.1
              · have : raceStep (some p) e = some (e.time, r) := by
                  simp [raceStep, hout, if_pos hcmp]
                rw [this]
                exact ih _ hlt (Or.inr ⟨hmemt, Or.inr ⟨(e.time, r), rfl, hlt'⟩⟩)
              · have : raceStep (some p) e = some p := by
                  simp [raceStep, hout, if_neg hcmp]
                rw [this]
                exact ih _ hlt (Or.inr ⟨hmemt, Or.inr ⟨p, rfl, hp⟩⟩)

/-- When no backend fulfils, the race has no winner. -/
theorem raceWinner_none (entries : List RacerEntry)
    (h : ∀ e ∈ entries, e.isSuccess = false) : raceWinner entries = none := by
  unfold raceWinner
  induction entries with
  | nil => rfl
  | cons e t ih =>
    have he := h e (List.mem_cons_self e t)
    have step1 : raceStep none e = none := by
      cases hout : e.outcome with
      | ok r => simp [RacerEntry.isSuccess, hout] at he
      | err name msg => simp [raceStep, hout]
    rw [List.foldl_cons, step1]
    exact ih fun x hx => h x (List.mem_cons_of_mem e hx)

/-! ### Substring lemmas for the aggregate error message -/

theorem strData_append (s t : String) : (s ++ t).data = s.data ++ t.data := by
  cases s
  cases t
  rfl

theorem isPrefixOf_append_self (pat b : List Char) : pat.isPrefixOf (pat ++ b) = true := by
  induction pat with
  | nil => simp [List.isPrefixOf]
  | cons c t ih => simp [List.isPrefixOf, ih]

theorem hasRun_nil (l : List Char) : hasRun [] l = true := by
  cases l <;> simp [hasRun, List.isPrefixOf]

theorem hasRun_append_left (pat x t : List Char) (h : hasRun pat t = true) :
    hasRun pat (x ++ t) = true := by
  induction x with
  | nil => simpa using h
  | cons c xs ih => simp [hasRun, ih]

theorem hasRun_self_append (pat b : List Char) : hasRun pat (pat ++ b) = true := by
  cases pat with
  | nil => exact hasRun_nil b
  | cons c t => simp [hasRun, isPrefixOf_append_self]

theorem strIncludes_joinSemi (l : List String) (m : String) (h : m ∈ l) :
    strIncludes (joinSemi l) m = true := by
  induction l with
  | nil => cases h
  | cons s t ih =>
    cases t with
    | nil =>
      rcases List.mem_singleton.mp h with rfl
      show hasRun m.data (joinSemi [m]).data = true
      rw [show joinSemi [m] = m from rfl]
      simpa using hasRun_self_append m.data []
    | cons s' t' =>
      rcases List.mem_cons.mp h with rfl | hmem
      · show hasRun m.data (joinSemi (m :: s' :: t')).data = true
        rw [show joinSemi (m :: s' :: t') = m ++ "; " ++ joinSemi (s' :: t') from rfl]
        have hd : (m ++ "; " ++ joinSemi (s' :: t')).data
            = m.data ++ (("; ").data ++ (joinSemi (s' :: t')).data) := by
          simp [strData_append, List.append_assoc]
        rw [hd]
        exact hasRun_self_append _ _
      · show hasRun m.data (joinSemi (s :: s' :: t')).data = true
        rw [show joinSemi (s :: s' :: t') = s ++ "; " ++ joinSemi (s' :: t') from rfl]
        have hd : (s ++ "; " ++ joinSemi (s' :: t')).data
            = (s.data ++ ("; ").data) ++ (joinSemi (s' :: t')).data := by
          simp [strData_append, List.append_assoc]
        rw [hd]
        exact hasRun_append_left _ _ _ (ih hmem)

theorem joinSemi_eq_empty (l : List String) (h : joinSemi l = "") :
    ∀ m ∈ l, m = "" := by
  cases l with
  | nil => intro m hm; cases hm
  | cons s t =>
    cases t with
    | nil =>
      intro m hm
      rcases List.mem_singleton.mp hm with rfl
      exact h
    | cons s' t' =>
      exfalso
      have hd : (s ++ "; " ++ joinSemi (s' :: t')).data = ([] : List Char) :=
        congrArg String.data h
      have hlen := congrArg List.length hd
      rw [strData_append, strData_append] at hlen
      simp only [List.length_append, List.length_nil] at hlen
      have h2 : ([';', ' '] : List Char).length = 2 := rfl
      rw [h2] at hlen
      omega

/-- A rejection message that survives the `"aborted"` filter is contained in
the aggregate error message verbatim. -/
theorem aggregateFailures_mem_contains (msgs : List String) (m : String)
    (hm : m ∈ msgs) (hab : strIncludes m "aborted" = false) :
    strIncludes (aggregateFailures msgs) m = true := by
  have hmf : m ∈ msgs.filter (fun x => !(strIncludes x "aborted")) :=
    List.mem_filter.mpr ⟨hm, by simp [hab]⟩
  unfold aggregateFailures
  by_cases hj : joinSemi (msgs.filter fun x => !(strIncludes x "aborted")) = ""
  · have hm0 : m = "" := joinSemi_eq_empty _ hj m hmf
    subst hm0
    show hasRun ("" : String).data _ = true
    exact hasRun_nil _
  · simp only [if_neg hj]
    show hasRun m.data (("All providers failed: " ++ _).data) = true
    rw [strData_append]
    exact hasRun_append_left _ _ _ (strIncludes_joinSemi _ m hmf)

/-! ## Claim C1 -/

/-- C1 counterexample: the claim fails as stated.  Three backends all reject
with genuine, non-cancellation errors (none is an `AbortError`), but the
first one's message happens to contain the substring `"aborted"`
(`"connection aborted"`), so the fragile substring filter in `freeTranslate`
drops it from the aggregate: the aggregate message does not contain that
backend's error. -/
theorem c1_counterexample :
    freeTranslate
        [⟨"google-direct", 1, .err "Error" "connection aborted"⟩,
         ⟨"mymemory", 2, .err "Error" "MyMemory API error: 500"⟩,
         ⟨"lingva", 3, .err "Error" "Lingva API error: 503"⟩] =
      .error "All providers failed: MyMemory API error: 500; Lingva API error: 503" ∧
    strIncludes "All providers failed: MyMemory API error: 500; Lingva API error: 503"
      "connection aborted" = false := by
  decide

/-- C1 (amended): if every backend rejects, `freeTranslate` rejects with a
single aggregate error built from the rejection messages that do not contain
the substring `"aborted"` (this is how cancellation pseudo-errors, which are
phrased `"<name> aborted (another provider won)"`, are excluded — but it
also drops any genuine error whose message contains `"aborted"`); the
aggregate message contains every surviving backend error message verbatim. -/
theorem c1_total_failure_aggregate (entries : List RacerEntry)
    (hfail : ∀ e ∈ entries, e.isSuccess = false) :
    freeTranslate entries =
      .error (aggregateFailures (entries.map entryRejectionMsg)) ∧
    ∀ e ∈ entries, strIncludes (entryRejectionMsg e) "aborted" = false →
      strIncludes (aggregateFailures (entries.map entryRejectionMsg))
        (entryRejectionMsg e) = true := by
  have hw := raceWinner_none entries hfail
  constructor
  · unfold freeTranslate
    rw [hw]
  · intro e he hab
    exact aggregateFailures_mem_contains _ _ (List.mem_map_of_mem _ he) hab

/-- C1 witness: three genuinely failing backends whose error messages do not
mention `"aborted"`; each message reappears inside the aggregate error. -/
theorem c1_witness :
    (∀ e ∈ [(⟨"google-direct", 1, .err "Error" "Google Direct error: 500"⟩ : RacerEntry),
            ⟨"mymemory", 2, .err "Error" "MyMemory daily quota exceeded"⟩,
            ⟨"lingva", 3, .err "Error" "Lingva API error: 503"⟩],
      e.isSuccess = false) ∧
    strIncludes
      (aggregateFailures
        ([(⟨"google-direct", 1, .err "Error" "Google Direct error: 500"⟩ : RacerEntry),
          ⟨"mymemory", 2, .err "Error" "MyMemory daily quota exceeded"⟩,
          ⟨"lingva", 3, .err "Error" "Lingva API error: 503"⟩].map entryRejectionMsg))
      (entryRejectionMsg ⟨"mymemory", 2, .err "Error" "MyMemory daily quota exceeded"⟩) = true :=
  ⟨by decide,
   (c1_total_failure_aggregate
      [⟨"google-direct", 1, .err "Error" "Google Direct error: 500"⟩,
       ⟨"mymemory", 2, .err "Error" "MyMemory daily quota exceeded"⟩,
       ⟨"lingva", 3, .err "Error" "Lingva API error: 503"⟩]
      (by decide)).2
    ⟨"mymemory", 2, .err "Error" "MyMemory daily quota exceeded"⟩
    (by decide) (by decide)⟩

/-! ## Claim C9 -/

/-- C9: all configured backends race on the same inputs; the backend that
fulfils strictly earliest becomes `freeTranslate`'s result — completion
order alone decides, not list position or priority — and every backend
still in flight at that instant receives the cooperative abort signal, so
its own outcome is never observed (it settles as an `AbortError` instead). -/
theorem c9_race_first_success_wins (entries : List RacerEntry)
    (e₀ : RacerEntry) (r₀ : FreeTranslateResult)
    (hmem : e₀ ∈ entries) (hok : e₀.outcome = .ok r₀)
    (hfirst : ∀ e ∈ entries, e.isSuccess = true → e = e₀ ∨ e₀.time < e.time) :
    freeTranslate entries = .ok r₀ ∧
    ∀ e ∈ entries, e₀.time < e.time →
      receivesAbort entries e = true ∧
      observedOutcome entries e = .err "AbortError" "The operation was aborted" := by
  have hwin : raceWinner entries = some (e₀.time, r₀) :=
    raceFold_min e₀ r₀ hok entries none hfirst (Or.inr ⟨hmem, Or.inl rfl⟩)
  constructor
  · unfold freeTranslate
    rw [hwin]
  · intro e _ hlt
    have habort : receivesAbort entries e = true := by
      unfold receivesAbort
      rw [hwin]
      simpa using hlt
    refine ⟨habort, ?_⟩
    unfold observedOutcome
    rw [habort]
    rfl

/-- C9 witness: the middle backend (`mymemory`, settling at instant 3) wins
over the first-listed backend (which fails) and the later `lingva` success;
`lingva` is aborted and its result never observed. -/
theorem c9_witness :
    (∀ e ∈ [(⟨"google-direct", 7, .err "Error" "Google Direct error: 500"⟩ : RacerEntry),
            ⟨"mymemory", 3, .ok ⟨"Bonjour", some "en", "mymemory"⟩⟩,
            ⟨"lingva", 9, .ok ⟨"Salut", none, "lingva"⟩⟩],
      e.isSuccess = true →
        e = ⟨"mymemory", 3, .ok ⟨"Bonjour", some "en", "mymemory"⟩⟩ ∨ 3 < e.time) ∧
    freeTranslate
        [⟨"google-direct", 7, .err "Error" "Google Direct error: 500"⟩,
         ⟨"mymemory", 3, .ok ⟨"Bonjour", some "en", "mymemory"⟩⟩,
         ⟨"lingva", 9, .ok ⟨"Salut", none, "lingva"⟩⟩] =
      .ok ⟨"Bonjour", some "en", "mymemory"⟩ ∧
    receivesAbort
        [⟨"google-direct", 7, .err "Error" "Google Direct error: 500"⟩,
         ⟨"mymemory", 3, .ok ⟨"Bonjour", some "en", "mymemory"⟩⟩,
         ⟨"lingva", 9, .ok ⟨"Salut", none, "lingva"⟩⟩]
        ⟨"lingva", 9, .ok ⟨"Salut", none, "lingva"⟩⟩ = true :=
  ⟨by decide,
   (c9_race_first_success_wins
      [⟨"google-direct", 7, .err "Error" "Google Direct error: 500"⟩,
       ⟨"mymemory", 3, .ok ⟨"Bonjour", some "en", "mymemory"⟩⟩,
       ⟨"lingva", 9, .ok ⟨"Salut", none, "lingva"⟩⟩]
      ⟨"mymemory", 3, .ok ⟨"Bonjour", some "en", "mymemory"⟩⟩
      ⟨"Bonjour", some "en", "mymemory"⟩
      (by decide) rfl (by decide)).1,
   ((c9_race_first_success_wins
      [⟨"google-direct", 7, .err "Error" "Google Direct error: 500"⟩,
       ⟨"mymemory", 3, .ok ⟨"Bonjour", some "en", "mymemory"⟩⟩,
       ⟨"lingva", 9, .ok ⟨"Salut", none, "lingva"⟩⟩]
      ⟨"mymemory", 3, .ok ⟨"Bonjour", some "en", "mymemory"⟩⟩
      ⟨"Bonjour", some "en", "mymemory"⟩
      (by decide) rfl (by decide)).2
    ⟨"lingva", 9, .ok ⟨"Salut", none, "lingva"⟩⟩ (by decide) (by decide)).1⟩

/-! ## `BaseLLMProvider.fetchWithRetry` (`providers/base.ts`)

The retry loop performs up to `retries` fetches.  An attempt is an external
event: either an HTTP response with a status and body text, or a thrown
network error.  `response.ok` is a status in `[200, 300)`.  The source reads

```
for (let i = 0; i < retries; i++) {
  try {
    const response = await fetch(url, options)
    if (response.ok) return response
    if (response.status >= 400 && response.status < 500) {
      const error = await response.text()
      throw new Error(`API error ...`)       // caught by the catch below!
    }
    lastError = new Error(`HTTP ...`)
  } catch (err) { lastError = err }
  if (i < retries - 1) await new Promise((r) => setTimeout(r, Math.pow(2, i) * 1000))
}
throw lastError || new Error('Request failed')
```

so the `throw` for a 4xx is intercepted by the very next `catch` and the
loop continues to the following attempt. -/

/-- What a single `fetch` does. -/
inductive AttemptResult where
  | response (status : Nat) (bodyText : String)
  | networkError (msg : String)
  deriving DecidableEq, Repr

/-- Observable behaviour of one `fetchWithRetry` call: the returned
response (status, body) or thrown error message, the number of `fetch`
invocations issued, and the backoff waits performed (in milliseconds). -/
structure RetryTrace where
  result : Except String (Nat × String)
  calls : Nat
  delays : List Nat
  deriving DecidableEq, Repr

/-- The loop body of `fetchWithRetry`; `fuel` counts the remaining
iterations and `i` is the current loop index. -/
def fetchGo (attempts : Nat → AttemptResult) (retries : Nat) :
    Nat → Nat → Option String → Nat → List Nat → RetryTrace
  | 0, _, lastError, calls, delays =>
    { result := .error (lastError.getD "Request failed"), calls, delays }
  | fuel + 1, i, _lastError, calls, delays =>
    match attempts i with
    | .response st body =>
      if 200 ≤ st ∧ st < 300 then
        { result := .ok (st, body), calls := calls + 1, delays }
      else
        let le :=
          if 400 ≤ st ∧ st < 500 then
            some ("API error " ++ toString st ++ ": " ++ body)
          else some ("HTTP " ++ toString st)
        let delays' := if i < retries - 1 then delays ++ [2 ^ i * 1000] else delays
        fetchGo attempts retries fuel (i + 1) le (calls + 1) delays'
    | .networkError m =>
      let delays' := if i < retries - 1 then delays ++ [2 ^ i * 1000] else delays
      fetchGo attempts retries fuel (i + 1) (some m) (calls + 1) delays'

/-- `fetchWithRetry` from `providers/base.ts` (default `retries = 3`). -/
def fetchWithRetry (attempts : Nat → AttemptResult) (retries : Nat := 3) : RetryTrace :=
  fetchGo attempts retries retries 0 none 0 []

/-! ## Claim C2 -/

/-- C2: evaluation of `fetchWithRetry` at the failing input.  When every
fetch resolves with an HTTP 400 response, the code issues all **3** fetch
attempts, waiting 1000 ms and then 2000 ms in between, and only after
exhausting the budget rejects with the 4xx error — the 4xx `throw` sits
inside the `try` block and is caught by the loop's own `catch`, so contrary
to the claim (and to the code's own comment "Don't retry on client errors")
a 4xx response does not stop the retry loop. -/
theorem c2_4xx_retried_eval :
    fetchWithRetry (fun _ => .response 400 "Bad Request") 3 =
      { result := .error "API error 400: Bad Request"
        calls := 3, delays := [1000, 2000] } := by
  decide

/-! ## The `POST /translate/dual` route (`routes/translate.ts`)

The handler validates the body, computes `hasLLMConfig`, starts the machine
path (`freeTranslate`) and — only when configured — the LLM path
(`translateWithUserKeys`), each with a `.catch` that converts a rejection
into an `{error: ...}` object, joins both and assembles the `DualResult`
payload with HTTP 200.  The two paths' network behaviours are the outcome
parameters `machineOutcome` / `llmOutcome`; absent request fields are `""`
(falsy) or `none`. -/

/-- The `machine` half of the dual response. -/
structure DualMachineHalf where
  translatedText : Option String
  provider : Option String
  error : Option String
  deriving DecidableEq, Repr

/-- The `llm` half of the dual response. -/
structure DualLlmHalf where
  translatedText : Option String
  model : Option String
  error : Option String
  available : Bool
  deriving DecidableEq, Repr

/-- The `DualResult` payload. -/
structure DualResult where
  machine : DualMachineHalf
  llm : DualLlmHalf
  sourceLang : String
  targetLang : String
  deriving DecidableEq, Repr

/-- The request body fields the dual route reads. -/
structure DualRequest where
  text : String
  targetLang : String
  sourceLang : Option String := none
  apiKeys : Option UserApiKeys := none
  deriving DecidableEq, Repr

/-- `const hasLLMConfig = apiKeys && getFirstAvailableProvider(apiKeys)`,
coerced with `!!`. -/
def hasLLMConfig (apiKeys : Option UserApiKeys) : Bool :=
  match apiKeys with
  | some ks => (getFirstAvailableProvider ks).isSome
  | none => false

/-- The `POST /translate/dual` handler.  An invalid body yields the 400
error response; otherwise the call succeeds with the assembled payload,
whatever the two translation outcomes were. -/
def dualTranslate (req : DualRequest)
    (machineOutcome : Except String FreeTranslateResult)
    (llmOutcome : Except String TranslationResult) :
    Except (Nat × String) DualResult :=
  if req.text = "" ∨ req.targetLang = "" then
    .error (400, "Missing required fields: text and targetLang")
  else
    let hasLLM := hasLLMConfig req.apiKeys
    let machine : DualMachineHalf :=
      match machineOutcome with
      | .ok r =>
        { translatedText := some r.translatedText, provider := some r.provider, error := none }
      | .error m => { translatedText := none, provider := none, error := some m }
    let llm : DualLlmHalf :=
      if hasLLM then
        match llmOutcome with
        | .ok t =>
          { translatedText := some t.translatedText, model := some t.model
            error := none, available := hasLLM }
        | .error m =>
          { translatedText := none, model := none, error := some m, available := hasLLM }
      else { translatedText := none, model := none, error := none, available := hasLLM }
    let src :=
      match machineOutcome with
      | .ok r => jsOrStr r.detectedSourceLang (jsOrStr req.sourceLang "auto")
      | .error _ => jsOrStr req.sourceLang "auto"
    .ok { machine, llm, sourceLang := src, targetLang := req.targetLang }

/-- Availability of the LLM half is exactly "at least one provider key is
present and non-empty". -/
theorem hasLLMConfig_iff (ak : Option UserApiKeys) :
    hasLLMConfig ak = true ↔
      ∃ ks p s, ak = some ks ∧ keyOf ks p = some s ∧ s ≠ "" := by
  have hmem : ∀ p : ModelProvider, p ∈ providerPriority := by
    intro p
    cases p <;> simp [providerPriority]
  cases ak with
  | none => simp [hasLLMConfig]
  | some ks =>
    simp only [hasLLMConfig]
    constructor
    · intro hs
      cases hfm : (providerPriority.filterMap fun p =>
          match keyOf ks p with
          | some s => if s = "" then none else some (p, s)
          | none => none) with
      | nil =>
        rw [getFirstAvailableProvider, hfm] at hs
        simp at hs
      | cons a t =>
        have ha : a ∈ providerPriority.filterMap fun p =>
            match keyOf ks p with
            | some s => if s = "" then none else some (p, s)
            | none => none := by
          rw [hfm]
          exact List.mem_cons_self a t
        obtain ⟨p, _, hp⟩ := List.mem_filterMap.mp ha
        refine ⟨ks, p, ?_⟩
        split at hp
        · rename_i s hks
          split at hp
          · cases hp
          · rename_i hse
            exact ⟨s, rfl, hks, hse⟩
        · cases hp
    · rintro ⟨ks', p, s, hk, hks, hs⟩
      injection hk with hk
      subst hk
      have hpick : (match keyOf ks p with
          | some s => if s = "" then none else some (p, s)
          | none => none) = some (p, s) := by
        rw [hks]
        simp [hs]
      have hmemf : (p, s) ∈ providerPriority.filterMap fun p =>
          match keyOf ks p with
          | some s => if s = "" then none else some (p, s)
          | none => none :=
        List.mem_filterMap.mpr ⟨p, hmem p, hpick⟩
      rw [getFirstAvailableProvider]
      cases hfm : (providerPriority.filterMap fun p =>
          match keyOf ks p with
          | some s => if s = "" then none else some (p, s)
          | none => none) with
      | nil => rw [hfm] at hmemf; cases hmemf
      | cons a t => rfl

/-! ## Claim C3 -/

/-- C3: with a valid request (non-empty `text` and `targetLang`) the dual
route always succeeds, whatever the two paths did; a failing machine path is
captured in `machine.error` without touching the LLM half, a failing LLM
path is captured in `llm.error` without touching the machine half, and each
successful half's translation always reaches the caller. -/
theorem c3_dual_independence (req : DualRequest)
    (mo : Except String FreeTranslateResult) (lo : Except String TranslationResult)
    (htext : req.text ≠ "") (htl : req.targetLang ≠ "") :
    ∃ resp : DualResult, dualTranslate req mo lo = .ok resp ∧
      (∀ m, mo = .error m →
        resp.machine.error = some m ∧ resp.machine.translatedText = none) ∧
      (∀ r, mo = .ok r →
        resp.machine.translatedText = some r.translatedText ∧ resp.machine.error = none) ∧
      (hasLLMConfig req.apiKeys = true → ∀ m, lo = .error m →
        resp.llm.error = some m ∧ resp.llm.translatedText = none) ∧
      (hasLLMConfig req.apiKeys = true → ∀ t, lo = .ok t →
        resp.llm.translatedText = some t.translatedText ∧ resp.llm.error = none) := by
  unfold dualTranslate
  rw [if_neg (by push_neg; exact ⟨htext, htl⟩)]
  refine ⟨_, rfl, ?_, ?_, ?_, ?_⟩
  · intro m hm
    subst hm
    exact ⟨rfl, rfl⟩
  · intro r hr
    subst hr
    exact ⟨rfl, rfl⟩
  · intro hconf m hm
    subst hm
    simp [hconf]
  · intro hconf t ht
    subst ht
    simp [hconf]

/-- C3 witness: machine path succeeds while the configured LLM path fails;
the call succeeds, the machine translation reaches the caller and the LLM
error is captured in its own half. -/
theorem c3_witness :
    ("Hello" : String) ≠ "" ∧
    ∃ resp : DualResult,
      dualTranslate ⟨"Hello", "zh", none, some { openai := some "sk-1" }⟩
          (.ok ⟨"你好", some "en", "google-direct"⟩) (.error "LLM quota exceeded") =
        .ok resp ∧
      resp.machine.translatedText = some "你好" ∧
      resp.llm.error = some "LLM quota exceeded" := by
  refine ⟨by decide, ?_⟩
  obtain ⟨resp, heq, _, hmok, hlerr, _⟩ :=
    c3_dual_independence ⟨"Hello", "zh", none, some { openai := some "sk-1" }⟩
      (.ok ⟨"你好", some "en", "google-direct"⟩) (.error "LLM quota exceeded")
      (by decide) (by decide)
  exact ⟨resp, heq, (hmok _ rfl).1, (hlerr (by decide) _ rfl).1⟩

/-! ## Claim C8 -/

/-- C8: in the dual response, `llm.available` is `true` exactly when the
supplied key map is present and holds at least one non-empty provider key —
`false` when `apiKeys` is absent, empty or all-empty — independently of how
either translation path behaved. -/
theorem c8_llm_available (req : DualRequest)
    (mo : Except String FreeTranslateResult) (lo : Except String TranslationResult)
    (htext : req.text ≠ "") (htl : req.targetLang ≠ "") :
    ∃ resp : DualResult, dualTranslate req mo lo = .ok resp ∧
      (resp.llm.available = true ↔
        ∃ ks p s, req.apiKeys = some ks ∧ keyOf ks p = some s ∧ s ≠ "") := by
  unfold dualTranslate
  rw [if_neg (by push_neg; exact ⟨htext, htl⟩)]
  refine ⟨_, rfl, ?_⟩
  rw [← hasLLMConfig_iff req.apiKeys]
  cases hconf : hasLLMConfig req.apiKeys with
  | false =>
    cases lo <;> simp [hconf]
  | true =>
    cases lo <;> simp [hconf]

/-- C8 witness: a key map whose only non-empty entry is the `deepseek` key
makes `llm.available` true even though the LLM call itself errors. -/
theorem c8_witness :
    ("Hi" : String) ≠ "" ∧
    ∃ resp : DualResult,
      dualTranslate ⟨"Hi", "zh", none, some { deepseek := some "sk-d" }⟩
          (.error "machine down") (.error "llm down") = .ok resp ∧
      resp.llm.available = true := by
  refine ⟨by decide, ?_⟩
  obtain ⟨resp, heq, hiff⟩ :=
    c8_llm_available ⟨"Hi", "zh", none, some { deepseek := some "sk-d" }⟩
      (.error "machine down") (.error "llm down") (by decide) (by decide)
  exact ⟨resp, heq, hiff.mpr ⟨_, .deepseek, "sk-d", rfl, rfl, by decide⟩⟩

/-! ## The batch splitter (`webpage-translation.ts`, `startWebTranslation`)

The loop greedily accumulates collected text nodes into the current batch;
when adding the next item would push the character total over
`MAX_TEXT_LENGTH = 2500` or the batch already holds
`MAX_BATCH_SIZE = 50` items, the current batch (if non-empty) is flushed
and a fresh batch is started with that item. -/

/-- A collected text node: the DOM node (identified by `id`) and its text. -/
structure TextItem where
  id : Nat
  text : String
  deriving DecidableEq, Repr

/-- Total character count of a batch. -/
def sumLen (b : List TextItem) : Nat :=
  (b.map fun it => it.text.length).sum

/-- The accumulation loop of `startWebTranslation`.  `cur` is the current
batch (in order), `curLen` its running character total, `acc` the flushed
batches so far. -/
def splitGo (maxChars maxItems : Nat) :
    List TextItem → List TextItem → Nat → List (List TextItem) → List (List TextItem)
  | [], cur, _, acc => if cur.isEmpty then acc else acc ++ [cur]
  | it :: rest, cur, curLen, acc =>
    if curLen + it.text.length > maxChars ∨ cur.length ≥ maxItems then
      splitGo maxChars maxItems rest [it] it.text.length
        (if cur.isEmpty then acc else acc ++ [cur])
    else
      splitGo maxChars maxItems rest (cur ++ [it]) (curLen + it.text.length) acc

/-- The batch splitter with the source's constants. -/
def splitIntoBatches (items : List TextItem) : List (List TextItem) :=
  splitGo 2500 50 items [] 0 []

/-- The invariant every emitted batch satisfies. -/
def goodBatch (maxChars maxItems : Nat) (b : List TextItem) : Prop :=
  b ≠ [] ∧ b.length ≤ maxItems ∧ (sumLen b ≤ maxChars ∨ b.length = 1)

theorem sumLen_append (a b : List TextItem) :
    sumLen (a ++ b) = sumLen a + sumLen b := by
  simp [sumLen]

/-- Core invariant of the accumulation loop. -/
theorem splitGo_spec (maxChars maxItems : Nat) (hmi : 1 ≤ maxItems) :
    ∀ (rest cur : List TextItem) (curLen : Nat) (acc : List (List TextItem)),
      curLen = sumLen cur →
      (cur = [] ∨ goodBatch maxChars maxItems cur) →
      (∀ b ∈ acc, goodBatch maxChars maxItems b) →
      (splitGo maxChars maxItems rest cur curLen acc).flatten = acc.flatten ++ (cur ++ rest) ∧
      ∀ b ∈ splitGo maxChars maxItems rest cur curLen acc, goodBatch maxChars maxItems b := by
  intro rest
  induction rest with
  | nil =>
    intro cur curLen acc _ hcur hacc
    by_cases hc : cur = []
    · subst hc
      constructor
      · simp [splitGo]
      · intro b hb
        rw [splitGo] at hb
        simp at hb
        exact hacc b hb
    · have hne : cur.isEmpty = false := by
        cases cur with
        | nil => exact absurd rfl hc
        | cons x xs => rfl
      constructor
      · simp [splitGo, hne]
      · intro b hb
        rw [splitGo] at hb
        rw [hne] at hb
        simp only [Bool.false_eq_true, if_false] at hb
        rcases List.mem_append.mp hb with hb | hb
        · exact hacc b hb
        · rcases List.mem_singleton.mp hb with rfl
          rcases hcur with rfl | hq
          · exact absurd rfl hc
          · exact hq
  | cons it rest' ih =>
    intro cur curLen acc hlen hcur hacc
    rw [splitGo]
    by_cases hcond : curLen + it.text.length > maxChars ∨ cur.length ≥ maxItems
    · rw [if_pos hcond]
      have hacc' : ∀ b ∈ (if cur.isEmpty then acc else acc ++ [cur]),
          goodBatch maxChars maxItems b := by
        by_cases hc : cur = []
        · subst hc
          simpa using hacc
        · have hne : cur.isEmpty = false := by
            cases cur with
            | nil => exact absurd rfl hc
            | cons x xs => rfl
          rw [hne]
          simp only [Bool.false_eq_true, if_false]
          intro b hb
          rcases List.mem_append.mp hb with hb | hb
          · exact hacc b hb
          · rcases List.mem_singleton.mp hb with rfl
            rcases hcur with rfl | hq
            · exact absurd rfl hc
            · exact hq
      have hgood1 : goodBatch maxChars maxItems [it] :=
        ⟨by simp, by simpa using hmi, Or.inr rfl⟩
      obtain ⟨hj, hg⟩ := ih [it] it.text.length (if cur.isEmpty then acc else acc ++ [cur])
        (by simp [sumLen]) (Or.inr hgood1) hacc'
      refine ⟨?_, hg⟩
      rw [hj]
      by_cases hc : cur = []
      · subst hc
        simp
      · have hne : cur.isEmpty = false := by
          cases cur with
          | nil => exact absurd rfl hc
          | cons x xs => rfl
        rw [hne]
        simp [List.append_assoc]
    · rw [if_neg hcond]
      push_neg at hcond
      obtain ⟨hchars, hitems⟩ := hcond
      have hgood2 : goodBatch maxChars maxItems (cur ++ [it]) := by
        refine ⟨by simp, ?_, Or.inl ?_⟩
        · rw [List.length_append, List.length_singleton]
          omega
        · rw [sumLen_append]
          have : sumLen [it] = it.text.length := by simp [sumLen]
          rw [this, ← hlen]
          omega
      obtain ⟨hj, hg⟩ := ih (cur ++ [it]) (curLen + it.text.length) acc
        (by rw [sumLen_append, hlen]; simp [sumLen]) (Or.inr hgood2) hacc
      refine ⟨?_, hg⟩
      rw [hj]
      simp [List.append_assoc]

/-! ## Claim C7 -/

/-- C7: for every input list, the greedy batch splitter's batches
concatenate (in order) back to the original list — nothing dropped,
duplicated, split or reordered — no batch holds more than 50 items, and no
batch's character total exceeds 2500 unless it is a single item that alone
exceeds 2500 characters. -/
theorem c7_batch_splitter_invariant (items : List TextItem) :
    (splitIntoBatches items).flatten = items ∧
    ∀ b ∈ splitIntoBatches items, b ≠ [] ∧ b.length ≤ 50 ∧
      (sumLen b ≤ 2500 ∨ ∃ it, b = [it] ∧ 2500 < it.text.length) := by
  obtain ⟨hj, hg⟩ := splitGo_spec 2500 50 (by omega) items [] 0 [] (by simp [sumLen])
    (Or.inl rfl) (by intro b hb; cases hb)
  constructor
  · simpa [splitIntoBatches] using hj
  · intro b hb
    obtain ⟨hne, hle, hdisj⟩ := hg b hb
    refine ⟨hne, hle, ?_⟩
    by_cases hsum : sumLen b ≤ 2500
    · exact Or.inl hsum
    · rcases hdisj with h | h1
      · exact Or.inl h
      · right
        cases b with
        | nil => exact absurd rfl hne
        | cons x xs =>
          cases xs with
          | nil =>
            refine ⟨x, rfl, ?_⟩
            have : sumLen [x] = x.text.length := by simp [sumLen]
            omega
          | cons y ys => simp at h1

/-! ## `translateBatch` (`agents/translator.ts`)

Uncached texts are grouped into chunks of `BATCH_SIZE = 20`; each chunk is
sent as one numbered prompt (`[k] text`), and the combined response is split
on the delimiter regex `/\n*\[\d+\]\s*/`, the empty pieces are dropped
(`filter(Boolean)`), and the pieces are assigned back to the chunk's texts
*by position* (`translatedParts[i]`), falling back to the original text when
the position has no piece (`|| originalText`). -/

/-- One match of the delimiter regex `\n*\[\d+\]\s*` at the head of `l`:
greedy runs of newlines, a bracketed non-empty digit run, then greedy
whitespace.  Returns the remainder after the match. -/
def matchMarker (l : List Char) : Option (List Char) :=
  match l.dropWhile (fun c => c == '\n') with
  | '[' :: l2 =>
    if (l2.takeWhile Char.isDigit).isEmpty then none
    else
      match l2.dropWhile Char.isDigit with
      | ']' :: l4 => some (l4.dropWhile isJsSpace)
      | _ => none
  | _ => none

/-- JavaScript `String.prototype.split` against the delimiter regex: scan
left to right, cutting a piece at every match (the regex never matches the
empty string, so this is total with `fuel = length + 1`). -/
def scanSplit : Nat → List Char → List Char → List String → List String
  | 0, l, acc, out => (String.mk (acc.reverse ++ l) :: out).reverse
  | fuel + 1, l, acc, out =>
    match matchMarker l with
    | some rest => scanSplit fuel rest [] (String.mk acc.reverse :: out)
    | none =>
      match l with
      | [] => (String.mk acc.reverse :: out).reverse
      | c :: t => scanSplit fuel t (c :: acc) out

/-- `response.content.split(/\n*\[\d+\]\s*/).filter(Boolean)`. -/
def markerParts (s : String) : List String :=
  (scanSplit (s.data.length + 1) s.data [] []).filter fun p => p != ""

/-- `translatedParts[i]?.trim() || originalText`. -/
def assignPart (parts : List String) (i : Nat) (original : String) : String :=
  match parts[i]? with
  | some p => if jsTrim p = "" then original else jsTrim p
  | none => original

/-- The `batch.forEach` body: record each text's assigned translation in the
`newTranslations` map (last write wins, as for a JS `Map`) and write it to
the KV cache when caching is on. -/
def applyBatchGo (hashFn : String → String) (useCache : Bool)
    (sourceLang targetLang provName : String) (ctxType : Option String)
    (parts : List String) :
    List String → Nat → Store → (String → Option String) →
      Store × (String → Option String)
  | [], _, store, nt => (store, nt)
  | t :: ts, i, store, nt =>
    let translated := assignPart parts i t
    let nt' : String → Option String := fun x => if x = t then some translated else nt x
    let store' :=
      if useCache then
        kvPut store (generateCacheKey hashFn t sourceLang targetLang ctxType)
          { translatedText := translated, sourceLang, targetLang, model := provName }
      else store
    applyBatchGo hashFn useCache sourceLang targetLang provName ctxType parts
      ts (i + 1) store' nt'

/-- Structural worker for the `BATCH_SIZE = 20` chunking; the fuel is an
upper bound on the number of chunks (the list length suffices). -/
def chunksGo : Nat → List String → List (List String)
  | _, [] => []
  | 0, _ :: _ => []
  | fuel + 1, x :: xs => ((x :: xs).take 20) :: chunksGo fuel ((x :: xs).drop 20)

/-- `BATCH_SIZE = 20` chunking of the miss list. -/
def chunks20 (l : List String) : List (List String) :=
  chunksGo l.length l

/-- Mutable state threaded through the per-chunk loop. -/
structure BatchRunState where
  store : Store
  nt : String → Option String
  tokens : Nat
  calls : Nat

/-- The `for (const batch of batches)` loop: one provider `chat` call per
chunk (`chat j` is the provider's behaviour on the `j`-th call); a thrown
provider error aborts the whole function. -/
def runBatches (chat : Nat → Except String LLMResponse) (hashFn : String → String)
    (useCache : Bool) (sourceLang targetLang provName : String)
    (ctxType : Option String) :
    List (List String) → Nat → BatchRunState → BatchRunState × Option String
  | [], _, st => (st, none)
  | b :: bs, j, st =>
    match chat j with
    | .error m => ({ st with calls := st.calls + 1 }, some m)
    | .ok resp =>
      let parts := markerParts resp.content
      let sn := applyBatchGo hashFn useCache sourceLang targetLang provName ctxType
        parts b 0 st.store st.nt
      runBatches chat hashFn useCache sourceLang targetLang provName ctxType bs (j + 1)
        { store := sn.1, nt := sn.2, tokens := st.tokens + resp.tokensTotal
          calls := st.calls + 1 }

/-- The value `translateBatch` resolves with. -/
structure BatchResult where
  translations : List String
  sourceLang : String
  targetLang : String
  model : String
  cachedCount : Nat
  tokensUsed : Nat
  deriving DecidableEq, Repr

/-- Observable behaviour of one `translateBatch` call. -/
structure BatchTrace where
  result : Except String BatchResult
  store : Store
  providerCalls : Nat

/-- `translateBatch` from `agents/translator.ts`. -/
def translateBatch (hashFn : String → String) (store0 : Store)
    (texts : List String) (targetLang : String) (apiKeys : UserApiKeys)
    (opts : TranslateOptions) (chat : Nat → Except String LLMResponse) : BatchTrace :=
  let firstText := (texts.find? fun t => jsTrim t != "").getD ""
  let sourceLang := jsOrStr opts.sourceLang (detectLanguage firstText)
  let cachedFor : String → Option CachedTranslation := fun t =>
    if opts.useCache then
      store0 (generateCacheKey hashFn t sourceLang targetLang opts.contextType)
    else none
  let textsToTranslate := texts.filter fun t => (cachedFor t).isNone
  match selectProvider apiKeys opts.model with
  | none => { result := .error "No API key configured", store := store0, providerCalls := 0 }
  | some (prov, _apiKey) =>
    let sn := runBatches chat hashFn opts.useCache sourceLang targetLang
      (providerName prov) opts.contextType (chunks20 textsToTranslate) 0
      { store := store0, nt := fun _ => none, tokens := 0, calls := 0 }
    match sn.2 with
    | some m => { result := .error m, store := sn.1.store, providerCalls := sn.1.calls }
    | none =>
      { result := .ok
          { translations := texts.map fun t =>
              match cachedFor t with
              | some c => c.translatedText
              | none => jsOrStr (sn.1.nt t) t
            sourceLang, targetLang, model := providerName prov
            cachedCount := (texts.eraseDups.filter fun t => (cachedFor t).isSome).length
            tokensUsed := sn.1.tokens }
        store := sn.1.store, providerCalls := sn.1.calls }

/-! ### Lemmas about the demux assignment -/

theorem applyBatchGo_nt_notmem (hashFn : String → String) (uc : Bool)
    (sl tl pv : String) (ctx : Option String) (parts : List String) :
    ∀ (ts : List String) (i : Nat) (store : Store) (nt : String → Option String)
      (x : String), x ∉ ts →
      (applyBatchGo hashFn uc sl tl pv ctx parts ts i store nt).2 x = nt x := by
  intro ts
  induction ts with
  | nil => intro i store nt x _; rfl
  | cons t ts' ih =>
    intro i store nt x hx
    have hxt : x ≠ t := fun h => hx (h ▸ List.mem_cons_self t ts')
    have hxts : x ∉ ts' := fun h => hx (List.mem_cons_of_mem t h)
    simp only [applyBatchGo]
    rw [ih (i + 1) _ _ x hxts]
    simp [hxt]

theorem applyBatchGo_nt_get (hashFn : String → String) (uc : Bool)
    (sl tl pv : String) (ctx : Option String) (parts : List String) :
    ∀ (ts : List String), ts.Nodup →
      ∀ (i : Nat) (store : Store) (nt : String → Option String) (j : Nat) (t : String),
        ts[j]? = some t →
        (applyBatchGo hashFn uc sl tl pv ctx parts ts i store nt).2 t =
          some (assignPart parts (i + j) t) := by
  intro ts
  induction ts with
  | nil => intro _ i store nt j t hj; simp at hj
  | cons t0 ts' ih =>
    intro hnd i store nt j t hj
    have hnd' := List.nodup_cons.mp hnd
    cases j with
    | zero =>
      simp only [List.getElem?_cons_zero, Option.some.injEq] at hj
      subst hj
      simp only [applyBatchGo]
      rw [applyBatchGo_nt_notmem hashFn uc sl tl pv ctx parts ts' (i + 1) _ _ t0 hnd'.1]
      simp
    | succ j' =>
      simp only [List.getElem?_cons_succ] at hj
      simp only [applyBatchGo]
      have hidx : i + 1 + j' = i + (j' + 1) := by omega
      rw [ih hnd'.2 (i + 1) _ _ j' t hj, hidx]

theorem chunksGo_nil (n : Nat) : chunksGo n [] = [] := by
  cases n <;> rfl

theorem chunks20_small (l : List String) (h0 : l ≠ []) (h : l.length ≤ 20) :
    chunks20 l = [l] := by
  cases l with
  | nil => exact absurd rfl h0
  | cons x xs =>
    show chunksGo (xs.length + 1) (x :: xs) = [x :: xs]
    rw [chunksGo]
    rw [List.take_of_length_le h, List.drop_eq_nil_of_le h, chunksGo_nil]

theorem runBatches_single (chat : Nat → Except String LLMResponse)
    (hashFn : String → String) (uc : Bool) (sl tl pv : String) (ctx : Option String)
    (b : List String) (j : Nat) (st : BatchRunState) (resp : LLMResponse)
    (hchat : chat j = .ok resp) :
    runBatches chat hashFn uc sl tl pv ctx [b] j st =
      ({ store := (applyBatchGo hashFn uc sl tl pv ctx (markerParts resp.content)
            b 0 st.store st.nt).1
         nt := (applyBatchGo hashFn uc sl tl pv ctx (markerParts resp.content)
            b 0 st.store st.nt).2
         tokens := st.tokens + resp.tokensTotal
         calls := st.calls + 1 }, none) := by
  simp only [runBatches, hchat]

theorem assignPart_of_none (parts : List String) (i : Nat) (t : String)
    (h : parts[i]? = none) : assignPart parts i t = t := by
  unfold assignPart
  rw [h]

theorem assignPart_of_some (parts : List String) (i : Nat) (t p : String)
    (h : parts[i]? = some p) :
    assignPart parts i t = if jsTrim p = "" then t else jsTrim p := by
  unfold assignPart
  rw [h]

/-- The `||` fallback never changes an already-assigned value. -/
theorem jsOrStr_some_assign (parts : List String) (i : Nat) (t : String) :
    jsOrStr (some (assignPart parts i t)) t = assignPart parts i t := by
  show (if assignPart parts i t = "" then t else assignPart parts i t) = assignPart parts i t
  by_cases hv : assignPart parts i t = ""
  · rw [if_pos hv, hv]
    cases hp : parts[i]? with
    | none =>
      rw [assignPart_of_none parts i t hp] at hv
      exact hv
    | some p =>
      rw [assignPart_of_some parts i t p hp] at hv
      by_cases hj : jsTrim p = ""
      · rw [if_pos hj] at hv
        exact hv
      · rw [if_neg hj] at hv
        exact absurd hv hj
  · rw [if_neg hv]

/-! ## Claim C5 -/

/-- C5 counterexample: the claim fails as stated.  For the batch
`["Hello", "World"]` with provider response `"[2] Monde"`, fragment
`"Hello"`'s numbered marker `[1]` does not occur in the response, yet the
positional demux hands `"Hello"` the piece `"Monde"` (fragment 2's
translation) instead of degrading to its own source text. -/
theorem c5_counterexample :
    (translateBatch (fun s => s) emptyStore ["Hello", "World"] "fr"
        { openai := some "k" } {} (fun _ => .ok ⟨"[2] Monde", 9⟩)).result =
      .ok { translations := ["Monde", "World"], sourceLang := "en", targetLang := "fr"
            model := "openai", cachedCount := 0, tokensUsed := 9 } ∧
    strIncludes "[2] Monde" "[1]" = false ∧
    ("Monde" : String) ≠ "Hello" := by
  decide

/-- C5 (amended): batch demultiplexing splits the combined response on the
numbered `[k]` markers and assigns the resulting pieces to the batch's
fragments **by position**, in original input order: fragment `i` receives
the `i`-th non-empty piece (trimmed), and any fragment at a position with no
piece — in particular every fragment beyond the number of pieces, as when a
trailing marker is missing — yields its own source text rather than failing
the whole batch.  (For the well-formed response `"[1] Bonjour\n\n[2] Monde"`
on `["Hello", "World"]` this gives exactly `["Bonjour", "Monde"]`.) -/
theorem c5_positional_demux (hashFn : String → String)
    (texts : List String) (targetLang : String) (apiKeys : UserApiKeys)
    (opts : TranslateOptions) (content : String) (tokens : Nat)
    (prov : ModelProvider) (apiKey : String)
    (hne : texts ≠ []) (hnodup : texts.Nodup) (hlen : texts.length ≤ 20)
    (hsel : selectProvider apiKeys opts.model = some (prov, apiKey)) :
    ∃ r : BatchResult,
      (translateBatch hashFn emptyStore texts targetLang apiKeys opts
          (fun _ => .ok ⟨content, tokens⟩)).result = .ok r ∧
      r.translations.length = texts.length ∧
      (∀ i : Nat, (markerParts content).length ≤ i → r.translations[i]? = texts[i]?) ∧
      (∀ (i : Nat) (t p : String), texts[i]? = some t → (markerParts content)[i]? = some p →
        r.translations[i]? = some (if jsTrim p = "" then t else jsTrim p)) := by
  simp only [translateBatch, hsel, emptyStore, ite_self, Option.isNone_none,
    List.filter_true, Option.isSome_none, Bool.false_eq_true, List.filter_false,
    List.length_nil]
  rw [chunks20_small texts hne hlen,
    runBatches_single _ hashFn opts.useCache _ targetLang (providerName prov)
      opts.contextType texts 0 _ ⟨content, tokens⟩ rfl]
  refine ⟨_, rfl, ?_, ?_, ?_⟩
  · simp
  · intro i hi
    rw [List.getElem?_map]
    cases hti : texts[i]? with
    | none => rfl
    | some t =>
      have hnt := applyBatchGo_nt_get hashFn opts.useCache
        (jsOrStr opts.sourceLang (detectLanguage ((texts.find? fun x => jsTrim x != "").getD "")))
        targetLang (providerName prov) opts.contextType (markerParts content) texts hnodup
        0 emptyStore (fun _ => none) i t hti
      rw [Nat.zero_add] at hnt
      simp only [Option.map_some']
      rw [hnt, jsOrStr_some_assign,
        assignPart_of_none _ _ _ (List.getElem?_eq_none hi)]
  · intro i t p hti hpi
    rw [List.getElem?_map, hti]
    have hnt := applyBatchGo_nt_get hashFn opts.useCache
      (jsOrStr opts.sourceLang (detectLanguage ((texts.find? fun x => jsTrim x != "").getD "")))
      targetLang (providerName prov) opts.contextType (markerParts content) texts hnodup
      0 emptyStore (fun _ => none) i t hti
    rw [Nat.zero_add] at hnt
    simp only [Option.map_some']
    rw [hnt, jsOrStr_some_assign, assignPart_of_some _ _ _ _ hpi]

/-- C5 witness: the spec's example — `["Hello", "World"]` demuxed from
`"[1] Bonjour\n\n[2] Monde"` yields exactly `["Bonjour", "Monde"]` in
original order. -/
theorem c5_witness :
    (["Hello", "World"] : List String).Nodup ∧
    ∃ r : BatchResult,
      (translateBatch (fun s => s) emptyStore ["Hello", "World"] "fr"
          { openai := some "k" } {} (fun _ => .ok ⟨"[1] Bonjour\n\n[2] Monde", 9⟩)).result =
        .ok r ∧
      r.translations.length = 2 ∧
      r.translations[0]? = some "Bonjour" ∧ r.translations[1]? = some "Monde" := by
  refine ⟨by decide, ?_⟩
  obtain ⟨r, hr, hlen, _, hpos⟩ :=
    c5_positional_demux (fun s => s) ["Hello", "World"] "fr" { openai := some "k" } {}
      "[1] Bonjour\n\n[2] Monde" 9 .openai "k" (by decide) (by decide) (by decide) (by decide)
  refine ⟨r, hr, hlen, ?_, ?_⟩
  · rw [hpos 0 "Hello" "Bonjour" (by decide) (by decide)]
    decide
  · rw [hpos 1 "World" "Monde" (by decide) (by decide)]
    decide

end MeiTranslate
